import Mathlib

/-!
Shallow embedding of the host-selection core of the sia-hostdb-profiles
repository (Go), together with theorems settling the frozen claims about it.

Sources embedded:
* `modules/renter/hostdb/hostdbprofile/hostdbprofile.go` — profile record and
  `configHostDBProfile`;
* the map-based profile registry (`hostdbprofiles.go`, src/unnamed/part_005) —
  `NewHostDBProfiles`, `AddHostDBProfile`, `ConfigHostDBProfiles`,
  `DeleteHostDBProfile`, `GetProfile`;
* the tree collection (`hosttrees.go`, src/unnamed/part_006) — `HostTrees`
  with `AddHostTree`, `All`, `Insert`, `Select`, `SelectRandom`;
* the HostDB facade (`hostdb.go`, src/unnamed/part_009) — `ActiveHosts`,
  `RandomHosts`, `CheckForIPViolations`, `DeleteHostDBProfile`,
  `loadHostTrees`;
* `modules/renter/hostdb/persist.go` — `persistData`, `saveSync`, `load`.

Go maps are embedded as association lists (`List (String × α)`); the list
order stands for one concrete iteration order of the Go map.  A Go nil-map /
nil-pointer dereference (a run-time panic) is embedded as the `GoResult.panic`
constructor.  Machine integers that the claims touch (block heights,
timestamps) stay far below their overflow bounds, so they are embedded as
`Nat`.
-/

/-- Outcome of a Go expression that may dereference a nil pointer:
`ok a` is a normal result, `panic` stands for the run-time panic. -/
inductive GoResult (α : Type) where
  | ok (a : α)
  | panic
  deriving Repr, DecidableEq

/-- One scan record of a host: `modules.HostDBScan {Timestamp, Success}`. -/
structure HostDBScan where
  Timestamp : Nat
  Success : Bool
  deriving Repr, DecidableEq

/-- The fields of `modules.HostDBEntry` that the embedded operations read.
`PublicKey` embeds `types.SiaPublicKey`, `NetAddress` embeds
`modules.NetAddress`, `LastIPNetChange` embeds the `time.Time` field as a
totally ordered stamp. -/
structure HostDBEntry where
  PublicKey : String
  NetAddress : String
  AcceptingContracts : Bool
  ScanHistory : List HostDBScan
  FirstSeen : Nat
  LastIPNetChange : Nat
  deriving Repr, DecidableEq

/-- `hostdbprofile.HostDBProfile`: storage tier and location allowlist of one
profile (file `hostdbprofile.go`). -/
structure HostDBProfile where
  Storagetier : String
  Location : List String
  deriving Repr, DecidableEq

/-- The error values of package `hostdbprofile` (file `hostdbprofiles.go`). -/
inductive ProfileErr where
  | errHostdbProfileExists
  | errLocationNotSet
  | errLocationAlreadySet
  | errNoSuchHostdbProfile
  | errNoSuchLocation
  | errNoSuchSetting
  | errNoSuchStorageTier
  | errStoragetierAlreadySet
  deriving Repr, DecidableEq

/-- `storagetiers` (file `hostdbprofile.go`): the valid storage tiers. -/
def storagetiers : List String := ["cold", "warm", "hot"]

/-- `locations` (file `hostdbprofile.go`): the location allowlist. -/
def locations : List String := ["eu", "germany", "china", "united states", "russia"]

/-- `storagetierValid` (file `hostdbprofiles.go`): linear scan of
`storagetiers`. -/
def storagetierValid (storagetier : String) : Bool :=
  storagetiers.contains storagetier

/-- `locationValid` (file `hostdbprofiles.go`): linear scan of `locations`. -/
def locationValid (location : String) : Bool :=
  locations.contains location

/-- Helper embedding Go's `append(l[:index], l[index+1:]...)` after a
first-match index search: removes the first occurrence of `v` from `l`
(no change when `v` is absent, matching the guarded call site). -/
def removeFirst (l : List String) (v : String) : List String :=
  match l with
  | [] => []
  | x :: xs => if x = v then xs else x :: removeFirst xs v

/-- `HostDBProfile.configHostDBProfile` (file `hostdbprofile.go`).  The Go
method mutates the profile through a pointer and returns an error; the
embedding returns the profile after the call together with the error. -/
def HostDBProfile.configHostDBProfile (hdbp : HostDBProfile)
    (setting value : String) : HostDBProfile × Option ProfileErr :=
  if setting = "storagetier" then
    -- check if provided storage tier is not set already
    if hdbp.Storagetier = value then
      (hdbp, some .errStoragetierAlreadySet)
    -- check if provided storage tier is valid
    else if !storagetierValid value then
      (hdbp, some .errNoSuchStorageTier)
    else
      -- adjust the storage tier
      ({ hdbp with Storagetier := value }, none)
  else if setting = "addlocation" then
    -- check if location is already set
    if hdbp.Location.contains value then
      (hdbp, some .errLocationAlreadySet)
    -- check if provided location is valid
    else if !locationValid value then
      (hdbp, some .errNoSuchLocation)
    else
      -- add location
      ({ hdbp with Location := hdbp.Location ++ [value] }, none)
  else if setting = "removelocation" then
    -- check if and at what index the provided location is set
    if !hdbp.Location.contains value then
      (hdbp, some .errLocationNotSet)
    else
      -- delete the location
      ({ hdbp with Location := removeFirst hdbp.Location value }, none)
  else
    (hdbp, some .errNoSuchSetting)

/-- `hostdbprofile.HostDBProfiles` (file `hostdbprofiles.go`,
src/unnamed/part_005): the registry mapping profile names to profiles.  The
Go `map[string]*HostDBProfile` is embedded as an association list whose keys
the operations keep unique. -/
structure HostDBProfiles where
  profiles : List (String × HostDBProfile)
  deriving Repr, DecidableEq

/-- `NewHostDBProfiles` (src/unnamed/part_005): fresh registry holding only
the default profile. -/
def NewHostDBProfiles : HostDBProfiles :=
  { profiles := [("default", { Storagetier := "warm", Location := [] })] }

/-- Association-list lookup: the embedding of a Go map read `m[k]`, `none`
standing for Go's zero-value miss. -/
def assocFind {α : Type} (l : List (String × α)) (k : String) : Option α :=
  match l with
  | [] => none
  | (a, b) :: xs => if k = a then some b else assocFind xs k

/-- Go map lookup `hdbp.profiles[name]`. -/
def HostDBProfiles.find (hdbp : HostDBProfiles) (name : String) :
    Option HostDBProfile :=
  assocFind hdbp.profiles name

/-- `HostDBProfiles.AddHostDBProfile` (src/unnamed/part_005): reject an
existing name, reject an invalid tier, else store the new profile. -/
def HostDBProfiles.AddHostDBProfile (hdbp : HostDBProfiles)
    (name storagetier : String) : HostDBProfiles × Option ProfileErr :=
  -- check if hostdb profile with that name already exists
  if (hdbp.find name).isSome then
    (hdbp, some .errHostdbProfileExists)
  -- check if provided storage tier is valid
  else if !storagetierValid storagetier then
    (hdbp, some .errNoSuchStorageTier)
  else
    -- add new hostdb profile
    ({ profiles := hdbp.profiles ++
        [(name, { Storagetier := storagetier, Location := [] })] }, none)

/-- Helper: write the profile stored at `name` back into the association
list, embedding the in-place update through the Go map's pointer. -/
def updateAt (l : List (String × HostDBProfile)) (name : String)
    (p : HostDBProfile) : List (String × HostDBProfile) :=
  match l with
  | [] => []
  | (k, v) :: xs => if k = name then (k, p) :: xs else (k, v) :: updateAt xs name p

/-- `HostDBProfiles.ConfigHostDBProfiles` (src/unnamed/part_005): check the
profile exists, then delegate to `configHostDBProfile` on it. -/
def HostDBProfiles.ConfigHostDBProfiles (hdbp : HostDBProfiles)
    (name setting value : String) : HostDBProfiles × Option ProfileErr :=
  match hdbp.find name with
  | none => (hdbp, some .errNoSuchHostdbProfile)
  | some p =>
      let r := p.configHostDBProfile setting value
      ({ profiles := updateAt hdbp.profiles name r.1 }, r.2)

/-- `HostDBProfiles.DeleteHostDBProfile` (src/unnamed/part_005): check the
profile exists, then `delete(hdbp.profiles, name)`.  There is no check that
`name` is not `"default"`. -/
def HostDBProfiles.DeleteHostDBProfile (hdbp : HostDBProfiles)
    (name : String) : HostDBProfiles × Option ProfileErr :=
  if (hdbp.find name).isNone then
    (hdbp, some .errNoSuchHostdbProfile)
  else
    ({ profiles := hdbp.profiles.filter (fun kv => !(kv.1 = name)) }, none)

/-- `HostDBProfiles.GetProfile` (src/unnamed/part_005): `return
*hdbp.profiles[name]` — a lookup miss yields the nil pointer and the
dereference panics, which the embedding records as `GoResult.panic`. -/
def HostDBProfiles.GetProfile (hdbp : HostDBProfiles) (name : String) :
    GoResult HostDBProfile :=
  match hdbp.find name with
  | some p => .ok p
  | none => .panic

/-- The error values of package `hosttree` that the embedded operations
return (`errTreeExists` is referenced by `hosttrees.go`). -/
inductive TreeErr where
  | errTreeExists
  | errHostExists
  | errNoSuchHost
  deriving Repr, DecidableEq

/-- Modelled from the spec: the `hosttree.HostTree` implementation
(`hosttree.go`) is not under src/ — only its callers are.  Per spec §4.1 the
tree is "keyed by public key at leaves" and exposes `insert`, `select`,
`all`; the embedding keeps the leaves as a list of entries in insertion
order (weights, which only bias sampling, are not modelled). -/
structure HostTree where
  hosts : List HostDBEntry
  deriving Repr, DecidableEq

/-- Modelled from the spec: `insert(entry) → ok | duplicate` — "reject if the
public key already exists"; "Duplicate insert is an error, not silent
overwrite" (spec §4.1). -/
def HostTree.Insert (t : HostTree) (hdbe : HostDBEntry) :
    HostTree × Option TreeErr :=
  if t.hosts.any (fun h => h.PublicKey = hdbe.PublicKey) then
    (t, some .errHostExists)
  else
    ({ hosts := t.hosts ++ [hdbe] }, none)

/-- Modelled from the spec: `select(publicKey) → entry?` (spec §4.1); returns
the entry with the given key, `none` as the "not found" outcome. -/
def HostTree.Select (t : HostTree) (spk : String) : Option HostDBEntry :=
  t.hosts.find? (fun h => h.PublicKey = spk)

/-- Modelled from the spec: `all() → entries` (spec §4.1).  The source
orders the result by weight descending; no claim depends on the order, so
the embedding enumerates the leaves. -/
def HostTree.All (t : HostTree) : List HostDBEntry :=
  t.hosts

/-- `hosttree.HostTrees` (src/unnamed/part_006): one tree per hostdb
profile, mapped by profile name.  The Go `map[string]*HostTree` is embedded
as an association list; the list order stands for one iteration order of
the Go map. -/
structure HostTrees where
  trees : List (String × HostTree)
  deriving Repr, DecidableEq

/-- `NewHostTrees` (src/unnamed/part_006): the empty collection. -/
def NewHostTrees : HostTrees := { trees := [] }

/-- Go map lookup `ht.trees[name]`. -/
def HostTrees.find (ht : HostTrees) (name : String) : Option HostTree :=
  assocFind ht.trees name

/-- `HostTrees.AddHostTree` (src/unnamed/part_006): error when the name is
taken, else store the tree. -/
def HostTrees.AddHostTree (ht : HostTrees) (name : String) (tree : HostTree) :
    HostTrees × Option TreeErr :=
  if (ht.find name).isSome then
    (ht, some .errTreeExists)
  else
    ({ trees := ht.trees ++ [(name, tree)] }, none)

/-- `HostTrees.All` (src/unnamed/part_006): `return ht.trees[tree].All()` —
on a lookup miss the Go map yields a nil `*HostTree` and the method call
dereferences it, which the embedding records as `GoResult.panic`. -/
def HostTrees.All (ht : HostTrees) (tree : String) :
    GoResult (List HostDBEntry) :=
  match ht.find tree with
  | some t => .ok t.All
  | none => .panic

/-- `HostTrees.Insert` (src/unnamed/part_006): `for _, tree := range
ht.trees { if err := tree.Insert(hdbe); err != nil { return err } }` — each
tree is mutated in place, and the loop stops at the first error without
undoing earlier inserts.  The embedding returns the trees after the call
together with the error. -/
def HostTrees.insertLoop (hdbe : HostDBEntry) :
    List (String × HostTree) → List (String × HostTree) × Option TreeErr
  | [] => ([], none)
  | (name, tree) :: rest =>
      match tree.Insert hdbe with
      | (_, some err) => ((name, tree) :: rest, some err)
      | (tree2, none) =>
          let r := HostTrees.insertLoop hdbe rest
          ((name, tree2) :: r.1, r.2)

/-- `HostTrees.Insert` entry point (src/unnamed/part_006). -/
def HostTrees.Insert (ht : HostTrees) (hdbe : HostDBEntry) :
    HostTrees × Option TreeErr :=
  let r := HostTrees.insertLoop hdbe ht.trees
  ({ trees := r.1 }, r.2)

/-- `HostTrees.Select` (src/unnamed/part_006): delegates to the default
tree's `Select`; a missing default tree panics. -/
def HostTrees.Select (ht : HostTrees) (spk : String) :
    GoResult (Option HostDBEntry) :=
  match ht.find "default" with
  | some t => .ok (t.Select spk)
  | none => .panic

/-- `HostTrees.SelectRandom` (src/unnamed/part_009 call shape): `return
ht.trees[tree].SelectRandom(n, blacklist, addressBlacklist)`.  The tree-level
sampler draws randomly (spec §4.1), so the embedding abstracts it as the
function argument `samp`; a lookup miss dereferences a nil `*HostTree`,
recorded as `GoResult.panic`. -/
def HostTrees.SelectRandom
    (samp : HostTree → Nat → List String → List String → List HostDBEntry)
    (ht : HostTrees) (tree : String) (n : Nat)
    (blacklist addressBlacklist : List String) :
    GoResult (List HostDBEntry) :=
  match ht.find tree with
  | some t => .ok (samp t n blacklist addressBlacklist)
  | none => .panic

/-- `ErrInitialScanIncomplete` and friends (src/unnamed/part_009). -/
inductive HostDBErr where
  | ErrInitialScanIncomplete
  deriving Repr, DecidableEq

/-- The fields of the `HostDB` facade (src/unnamed/part_009) that the
embedded operations read.  `lastChange` embeds the opaque 32-byte
`modules.ConsensusChangeID`. -/
structure HostDB where
  hostdbProfiles : HostDBProfiles
  hostTrees : HostTrees
  initialScanComplete : Bool
  blockHeight : Nat
  lastChange : String
  deriving Repr, DecidableEq

/-- `HostDB.ActiveHosts` (src/unnamed/part_009): enumerate the named tree
and keep the entries with a non-empty scan history whose most recent scan
succeeded and which accept contracts (the three `continue` guards of the
source loop). -/
def HostDB.ActiveHosts (hdb : HostDB) (tree : String) :
    GoResult (List HostDBEntry) :=
  match hdb.hostTrees.All tree with
  | .panic => .panic
  | .ok allHosts =>
      .ok (allHosts.filter fun entry =>
        !entry.ScanHistory.isEmpty &&
        (entry.ScanHistory.getLastD { Timestamp := 0, Success := false }).Success &&
        entry.AcceptingContracts)

/-- `HostDB.RandomHosts` (src/unnamed/part_009): read the latch under the
lock; when it is unset return the empty slice with
`ErrInitialScanIncomplete` without touching any tree, else delegate to
`HostTrees.SelectRandom`.  `samp` abstracts the tree-level random sampler
(spec §4.1), whose draws come from the environment. -/
def HostDB.RandomHosts
    (samp : HostTree → Nat → List String → List String → List HostDBEntry)
    (hdb : HostDB) (tree : String) (n : Nat)
    (blacklist addressBlacklist : List String) :
    GoResult (List HostDBEntry × Option HostDBErr) :=
  if !hdb.initialScanComplete then
    .ok ([], some .ErrInitialScanIncomplete)
  else
    match HostTrees.SelectRandom samp hdb.hostTrees tree n blacklist addressBlacklist with
    | .ok l => .ok (l, none)
    | .panic => .panic

/-- `HostDB.DeleteHostDBProfile` (src/unnamed/part_009): delegate to the
registry's delete and save; no check protects the `"default"` profile. -/
def HostDB.DeleteHostDBProfile (hdb : HostDB) (name : String) :
    HostDB × Option ProfileErr :=
  let r := hdb.hostdbProfiles.DeleteHostDBProfile name
  match r.2 with
  | some err => (hdb, some err)
  | none => ({ hdb with hostdbProfiles := r.1 }, none)

/-- Modelled from the spec: the `hosttree` IP filter (`NewFilter`,
`Filtered`, `Add`) is not under src/ — only its caller is.  Spec §4.2: the
filter records the set of canonical subnet strings of every admitted
address; `filtered(address)` is true iff any of the address's resolved
subnets was already admitted; resolver failure means "no known IPs" (empty
subnet list).  The resolver argument maps a net address to its canonical
subnet strings (IPv4 /24, IPv6 /54). -/
structure IPFilter where
  admitted : List String
  deriving Repr, DecidableEq

/-- Modelled from the spec: `new(resolver)` — a fresh filter with nothing
admitted (spec §4.2). -/
def NewFilter : IPFilter := { admitted := [] }

/-- Modelled from the spec: `filtered(address)` (spec §4.2). -/
def IPFilter.Filtered (f : IPFilter) (resolver : String → List String)
    (address : String) : Bool :=
  (resolver address).any (fun s => f.admitted.contains s)

/-- Modelled from the spec: `add(address)` admits all of the address's
subnets (spec §4.2). -/
def IPFilter.Add (f : IPFilter) (resolver : String → List String)
    (address : String) : IPFilter :=
  { admitted := f.admitted ++ resolver address }

/-- The lookup loop of `HostDB.CheckForIPViolations`
(src/unnamed/part_009): collect the entries found in the database in input
order, and the keys with no entry, in input order, as the first batch of
bad hosts. -/
def lookupPhase (t : HostTree) : List String → List HostDBEntry × List String
  | [] => ([], [])
  | k :: ks =>
      let r := lookupPhase t ks
      match t.Select k with
      | some e => (e :: r.1, r.2)
      | none => (r.1, k :: r.2)

/-- The `sort.Slice` call of `HostDB.CheckForIPViolations`: ascending order
of `LastIPNetChange` (`entries[i].LastIPNetChange.Before(entries[j])`).
Embedded as an insertion sort, one of the orders the unstable Go sort may
produce. -/
def insertByAge (e : HostDBEntry) : List HostDBEntry → List HostDBEntry
  | [] => [e]
  | x :: xs =>
      if e.LastIPNetChange < x.LastIPNetChange then e :: x :: xs
      else x :: insertByAge e xs

/-- Sorting phase of `HostDB.CheckForIPViolations`. -/
def sortByAge (l : List HostDBEntry) : List HostDBEntry :=
  l.foldr insertByAge []

/-- The filter walk of `HostDB.CheckForIPViolations`
(src/unnamed/part_009): a rejected entry's key is recorded as bad, an
admitted entry's address is added to the filter. -/
def filterPhase (resolver : String → List String) (f : IPFilter) :
    List HostDBEntry → List String
  | [] => []
  | e :: es =>
      if f.Filtered resolver e.NetAddress then
        e.PublicKey :: filterPhase resolver f es
      else
        filterPhase resolver (f.Add resolver e.NetAddress) es

/-- `HostDB.CheckForIPViolations` (src/unnamed/part_009): look up every key
(a missing key is immediately bad), sort the found entries by
`LastIPNetChange` ascending, walk them through a fresh filter and append
the rejected keys.  The source reads the lookups from the default host
tree (it writes `hdb.hostTree.Select`, the field name of the
pre-profiles revision; `HostTrees.Select` reads the `"default"` tree). -/
def HostDB.CheckForIPViolations (hdb : HostDB)
    (resolver : String → List String) (hosts : List String) :
    GoResult (List String) :=
  match hdb.hostTrees.find "default" with
  | none => .panic
  | some t =>
      let lp := lookupPhase t hosts
      .ok (lp.2 ++ filterPhase resolver NewFilter (sortByAge lp.1))

/-- `persist.Metadata` as used by `persist.go`. -/
structure PersistMetadata where
  Header : String
  Version : String
  deriving Repr, DecidableEq

/-- `persistMetadata` (modules/renter/hostdb/persist.go): the header and
version written with every hostdb persistence record. -/
def persistMetadata : PersistMetadata :=
  { Header := "HostDB Persistence", Version := "0.5" }

/-- `hdbPersist` (modules/renter/hostdb/persist.go): the record saved to
disk.  `Profiles` is a Go map that is nil when the field is absent from the
decoded file, hence the `Option`. -/
structure HdbPersist where
  Profiles : Option (List (String × HostDBProfile))
  AllHosts : List HostDBEntry
  BlockHeight : Nat
  LastChange : String
  deriving Repr, DecidableEq

/-- `HostDB.persistData` (persist.go): snapshot the registry, the default
tree's enumeration, the block height and the last consensus change.  A
missing default tree panics inside `hostTrees.All("default")`. -/
def HostDB.persistData (hdb : HostDB) : GoResult HdbPersist :=
  match hdb.hostTrees.All "default" with
  | .panic => .panic
  | .ok allHosts =>
      .ok { Profiles := some hdb.hostdbProfiles.profiles
            AllHosts := allHosts
            BlockHeight := hdb.blockHeight
            LastChange := hdb.lastChange }

/-- The on-disk file written by `deps.SaveFileSync`: metadata plus record. -/
structure SavedFile where
  metadata : PersistMetadata
  data : HdbPersist
  deriving Repr, DecidableEq

/-- `HostDB.saveSync` (persist.go): write `persistData` tagged with
`persistMetadata`. -/
def HostDB.saveSync (hdb : HostDB) : GoResult SavedFile :=
  match hdb.persistData with
  | .panic => .panic
  | .ok data => .ok { metadata := persistMetadata, data := data }

/-- Error surfaced by `persist.LoadFile` on a header or version mismatch. -/
inductive PersistErr where
  | badMetadata
  deriving Repr, DecidableEq

/-- `HostDB.load` (persist.go): decode the file (`LoadFile` rejects a
metadata mismatch), install the profiles when the decoded map is non-nil,
set the block height and last change, and hand back the host list for
`loadHostTrees`. -/
def HostDB.load (hdb : HostDB) (file : SavedFile) :
    Except PersistErr (HostDB × List HostDBEntry) :=
  if file.metadata ≠ persistMetadata then
    .error .badMetadata
  else
    let hdb1 :=
      match file.data.Profiles with
      | some ps => { hdb with hostdbProfiles := { profiles := ps } }
      | none => hdb
    .ok ({ hdb1 with
            blockHeight := file.data.BlockHeight
            lastChange := file.data.LastChange }, file.data.AllHosts)

/-- The COMPATv1.1.0 clamp inside `HostDB.loadHostTrees`
(src/unnamed/part_009): `if hdb.blockHeight < host.FirstSeen {
host.FirstSeen = hdb.blockHeight }`. -/
def clampFirstSeen (blockHeight : Nat) (host : HostDBEntry) : HostDBEntry :=
  if blockHeight < host.FirstSeen then { host with FirstSeen := blockHeight }
  else host

/-- The per-profile tree build of `HostDB.loadHostTrees`
(src/unnamed/part_009): insert every host into a fresh tree, ignoring (only
logging) individual insert errors. -/
def buildTree (blockHeight : Nat) (allHosts : List HostDBEntry) : HostTree :=
  allHosts.foldl (fun t h => (t.Insert (clampFirstSeen blockHeight h)).1)
    { hosts := [] }

/-- `HostDB.loadHostTrees` (src/unnamed/part_009): one tree per profile
name, each populated from `allHosts`, registered with `AddHostTree`
(profile names are unique, so every registration succeeds on the empty
`NewHostTrees` the constructor installed). -/
def HostDB.loadHostTrees (hdb : HostDB) (allHosts : List HostDBEntry) : HostDB :=
  { hdb with
      hostTrees :=
        { trees := hdb.hostdbProfiles.profiles.map
            (fun kv => (kv.1, buildTree hdb.blockHeight allHosts)) } }

/-- One user-driven profile-registry operation (spec §4.3 lifecycle). -/
inductive ProfileOp where
  | add (name storagetier : String)
  | config (name setting value : String)
  | del (name : String)
  deriving Repr, DecidableEq

/-- Apply one registry operation, keeping the post-state whether or not the
operation reported an error. -/
def applyOp (hdbp : HostDBProfiles) : ProfileOp → HostDBProfiles
  | .add name tier => (hdbp.AddHostDBProfile name tier).1
  | .config name setting value => (hdbp.ConfigHostDBProfiles name setting value).1
  | .del name => (hdbp.DeleteHostDBProfile name).1

/-- Apply a sequence of registry operations in order. -/
def applyOps (hdbp : HostDBProfiles) (ops : List ProfileOp) : HostDBProfiles :=
  ops.foldl applyOp hdbp

/-- The spec's profile-name format (spec §3): lowercase, at most 32
characters, drawn from `[a-z0-9_-]`.  This predicate formalises the claim's
wording; the source has no counterpart. -/
def specValidProfileName (name : String) : Bool :=
  name.length ≤ 32 &&
  name.toList.all (fun c => "abcdefghijklmnopqrstuvwxyz0123456789_-".toList.contains c)

lemma assocFind_append_left {α : Type} (l1 l2 : List (String × α)) (k : String)
    (h : (assocFind l1 k).isSome = true) :
    assocFind (l1 ++ l2) k = assocFind l1 k := by
  induction l1 with
  | nil => simp [assocFind] at h
  | cons x xs ih =>
      obtain ⟨a, b⟩ := x
      by_cases hk : k = a
      · simp [assocFind, hk]
      · simp [assocFind, hk] at h ⊢
        exact ih h

lemma assocFind_updateAt_isSome (l : List (String × HostDBProfile))
    (name k : String) (p : HostDBProfile) :
    (assocFind (updateAt l name p) k).isSome = (assocFind l k).isSome := by
  induction l with
  | nil => simp [updateAt]
  | cons x xs ih =>
      obtain ⟨a, b⟩ := x
      by_cases ha : a = name
      · subst ha
        by_cases hk : k = a <;> simp [updateAt, assocFind, hk]
      · by_cases hk : k = a <;> simp [updateAt, ha, assocFind, hk, ih]

lemma assocFind_filter_ne {α : Type} (l : List (String × α)) (n k : String)
    (hk : k ≠ n) :
    assocFind (l.filter (fun kv => !(kv.1 = n))) k = assocFind l k := by
  induction l with
  | nil => simp
  | cons x xs ih =>
      obtain ⟨a, b⟩ := x
      by_cases ha : a = n
      · have hka : ¬ k = a := by rw [ha]; exact hk
        simp [List.filter, ha, assocFind, hka, hk, ih]
      · by_cases hk2 : k = a <;> simp [List.filter, ha, assocFind, hk2, ih]

lemma applyOp_preserves_key (r : HostDBProfiles) (op : ProfileOp) (k : String)
    (hop : ∀ name, op = .del name → name ≠ k)
    (h : (r.find k).isSome = true) : ((applyOp r op).find k).isSome = true := by
  cases op with
  | add name tier =>
      simp only [applyOp, HostDBProfiles.AddHostDBProfile]
      split_ifs with h1 h2
      · exact h
      · exact h
      · unfold HostDBProfiles.find at h ⊢
        simp [assocFind_append_left _ _ _ h, h]
  | config name setting value =>
      simp only [applyOp, HostDBProfiles.ConfigHostDBProfiles]
      cases hf : r.find name with
      | none => simpa using h
      | some p =>
          unfold HostDBProfiles.find at h ⊢
          simp [assocFind_updateAt_isSome, h]
  | del name =>
      have hk : k ≠ name := fun he => (hop name rfl) he.symm
      simp only [applyOp, HostDBProfiles.DeleteHostDBProfile]
      split_ifs with h1
      · exact h
      · unfold HostDBProfiles.find at h ⊢
        simpa [assocFind_filter_ne _ _ _ hk] using h

lemma applyOps_preserves_key (ops : List ProfileOp) (r : HostDBProfiles) (k : String)
    (hops : ∀ name, ProfileOp.del name ∈ ops → name ≠ k)
    (h : (r.find k).isSome = true) : ((applyOps r ops).find k).isSome = true := by
  induction ops generalizing r with
  | nil => simpa [applyOps] using h
  | cons op rest ih =>
      have h1 : ((applyOp r op).find k).isSome = true := by
        refine applyOp_preserves_key r op k ?_ h
        intro name hdel
        refine hops name ?_
        rw [hdel]
        exact List.mem_cons_self _ _
      have hfold : applyOps r (op :: rest) = applyOps (applyOp r op) rest := by
        simp [applyOps, List.foldl]
      rw [hfold]
      exact ih (applyOp r op)
        (fun name hm => hops name (List.mem_cons_of_mem _ hm)) h1

/-- C1 amended: the `default` profile exists in a fresh registry and
survives every sequence of add, configure and delete operations that never
deletes `"default"` itself; the code has no `Protected` error, so
`DeleteHostDBProfile("default")` succeeds and removes it. -/
theorem C1_amended_default_lifecycle (ops : List ProfileOp)
    (h : ∀ name, ProfileOp.del name ∈ ops → name ≠ "default") :
    ((applyOps NewHostDBProfiles ops).find "default").isSome = true := by
  exact applyOps_preserves_key ops NewHostDBProfiles "default" h (by decide)

/-- C1 counterexample: deleting `"default"` from a fresh registry returns
no error (in particular no `Protected` error) and the registry no longer
contains `"default"`. -/
theorem C1_counterexample :
    (NewHostDBProfiles.DeleteHostDBProfile "default").2 = none ∧
    ((NewHostDBProfiles.DeleteHostDBProfile "default").1.find "default") = none := by
  decide

/-- Witness for C1: the amended invariant at a concrete operation
sequence that adds a profile, reconfigures `default` and deletes the added
profile. -/
theorem C1_witness :
    ((applyOps NewHostDBProfiles
      [ProfileOp.add "archive" "cold",
       ProfileOp.config "default" "storagetier" "hot",
       ProfileOp.del "archive"]).find "default").isSome = true := by
  refine C1_amended_default_lifecycle _ ?_
  intro name hn
  simp at hn
  subst hn
  decide

/-- C6: `configHostDBProfile` validates its arguments exactly as claimed:
an unknown setting errors; for `storagetier` an equal tier is already-set
and a tier outside {cold, warm, hot} is unknown; for `addlocation` a
present location is already-set and one outside the allowlist is unknown;
for `removelocation` an absent location is not-set; in every remaining
case the requested change is applied. -/
theorem C6_configure_validation (p : HostDBProfile) (setting value : String) :
    p.configHostDBProfile setting value =
      if setting = "storagetier" then
        if p.Storagetier = value then (p, some .errStoragetierAlreadySet)
        else if value ∈ storagetiers then ({ p with Storagetier := value }, none)
        else (p, some .errNoSuchStorageTier)
      else if setting = "addlocation" then
        if value ∈ p.Location then (p, some .errLocationAlreadySet)
        else if value ∈ locations then ({ p with Location := p.Location ++ [value] }, none)
        else (p, some .errNoSuchLocation)
      else if setting = "removelocation" then
        if value ∈ p.Location then ({ p with Location := removeFirst p.Location value }, none)
        else (p, some .errLocationNotSet)
      else (p, some .errNoSuchSetting) := by
  unfold HostDBProfile.configHostDBProfile storagetierValid locationValid
  split_ifs <;> simp_all [List.elem_iff, List.contains]

/-- C10: configuration is atomic on error — whenever `configHostDBProfile`
reports an error, the profile is returned unchanged. -/
theorem C10_configure_atomic_on_error (p : HostDBProfile) (setting value : String)
    (err : ProfileErr) (h : (p.configHostDBProfile setting value).2 = some err) :
    (p.configHostDBProfile setting value).1 = p := by
  unfold HostDBProfile.configHostDBProfile at h ⊢
  split_ifs at h ⊢ <;> simp_all

/-- Witness for C10: configuring the already-set tier `warm` on the default
profile errors and leaves the profile untouched. -/
theorem C10_witness :
    (HostDBProfile.configHostDBProfile { Storagetier := "warm", Location := [] }
      "storagetier" "warm").2 = some .errStoragetierAlreadySet ∧
    (HostDBProfile.configHostDBProfile { Storagetier := "warm", Location := [] }
      "storagetier" "warm").1 = { Storagetier := "warm", Location := [] } :=
  ⟨by decide,
   C10_configure_atomic_on_error { Storagetier := "warm", Location := [] }
     "storagetier" "warm" .errStoragetierAlreadySet (by decide)⟩

/-- C8 counterexample: `AddHostDBProfile` accepts a name that violates the
claimed lowercase/[a-z0-9_-]/≤32 format — the add succeeds and the
malformed name is stored. -/
theorem C8_counterexample :
    (NewHostDBProfiles.AddHostDBProfile "An INVALID Name!" "warm").2 = none ∧
    ((NewHostDBProfiles.AddHostDBProfile "An INVALID Name!" "warm").1.find
      "An INVALID Name!").isSome = true ∧
    specValidProfileName "An INVALID Name!" = false := by
  decide

/-- C8 amended: `AddHostDBProfile` validates only name uniqueness and the
storage tier; the name string itself is never checked against any format. -/
theorem C8_amended_add_validation (r : HostDBProfiles) (name tier : String) :
    r.AddHostDBProfile name tier =
      if (r.find name).isSome then (r, some .errHostdbProfileExists)
      else if tier ∈ storagetiers then
        ({ profiles := r.profiles ++
            [(name, { Storagetier := tier, Location := [] })] }, none)
      else (r, some .errNoSuchStorageTier) := by
  unfold HostDBProfiles.AddHostDBProfile storagetierValid
  split_ifs <;> simp_all [List.elem_iff, List.contains]

/-- C9: looking up an unknown name is an exception-level failure, not a
"not found" outcome — `GetProfile` dereferences the nil pointer a map miss
yields, and `HostTrees.All` / `HostTrees.SelectRandom` call methods on a
nil `*HostTree`. -/
theorem C9_unknown_lookup_is_panic :
    NewHostDBProfiles.GetProfile "nonexistent" = .panic ∧
    HostTrees.All NewHostTrees "nosuch" = .panic ∧
    HostTrees.SelectRandom (fun t _ _ _ => t.hosts) NewHostTrees "nosuch" 1 [] []
      = .panic := by
  decide

/-- C3: `RandomHosts` fails fast with `ErrInitialScanIncomplete` and an
empty entry list while the initial-scan latch is unset, whatever the trees
hold; once the latch is set it returns the named tree's `SelectRandom`
result with no error. -/
theorem C3_randomHosts_latch
    (samp : HostTree → Nat → List String → List String → List HostDBEntry)
    (hdb : HostDB) (tree : String) (n : Nat)
    (blacklist addressBlacklist : List String) :
    (hdb.initialScanComplete = false →
      HostDB.RandomHosts samp hdb tree n blacklist addressBlacklist =
        .ok ([], some .ErrInitialScanIncomplete)) ∧
    (hdb.initialScanComplete = true →
      ∀ t, hdb.hostTrees.find tree = some t →
        HostDB.RandomHosts samp hdb tree n blacklist addressBlacklist =
          .ok (samp t n blacklist addressBlacklist, none)) := by
  constructor
  · intro h
    simp [HostDB.RandomHosts, h]
  · intro h t ht
    simp [HostDB.RandomHosts, h, HostTrees.SelectRandom, ht]

/-- A deterministic stand-in for the tree-level random sampler, used by the
concrete witnesses: take the first `n` leaves. -/
def sampTake (t : HostTree) (n : Nat) (_ : List String) (_ : List String) :
    List HostDBEntry :=
  t.hosts.take n

/-- A concrete host entry used by the witnesses. -/
def entryA : HostDBEntry :=
  { PublicKey := "pkA", NetAddress := "a.example:9982",
    AcceptingContracts := true, ScanHistory := [{ Timestamp := 3, Success := true }],
    FirstSeen := 5, LastIPNetChange := 0 }

/-- A concrete HostDB whose initial scan has completed, used by the
witnesses. -/
def hdbOn : HostDB :=
  { hostdbProfiles := NewHostDBProfiles,
    hostTrees := { trees := [("default", { hosts := [entryA] })] },
    initialScanComplete := true, blockHeight := 10, lastChange := "cc0" }

/-- The same HostDB with the latch still unset. -/
def hdbOff : HostDB := { hdbOn with initialScanComplete := false }

/-- Witness for C3: with the latch unset the call errors without touching
the tree; with it set the call returns the sampler's pick. -/
theorem C3_witness :
    HostDB.RandomHosts sampTake hdbOff "default" 1 [] [] =
      .ok ([], some .ErrInitialScanIncomplete) ∧
    HostDB.RandomHosts sampTake hdbOn "default" 1 [] [] =
      .ok ([entryA], none) := by
  constructor
  · exact (C3_randomHosts_latch sampTake hdbOff "default" 1 [] []).1 rfl
  · have h := (C3_randomHosts_latch sampTake hdbOn "default" 1 [] []).2 rfl
      { hosts := [entryA] } (by decide)
    simpa [sampTake] using h

/-- The activity test of `HostDB.ActiveHosts` as the source states it. -/
def activeTest (entry : HostDBEntry) : Bool :=
  !entry.ScanHistory.isEmpty &&
  (entry.ScanHistory.getLastD { Timestamp := 0, Success := false }).Success &&
  entry.AcceptingContracts

/-- C7: `ActiveHosts` returns exactly the entries of the named tree whose
scan history is non-empty, whose most recent scan succeeded, and which
accept contracts. -/
theorem C7_activeHosts_exact (hdb : HostDB) (tree : String) (t : HostTree)
    (h : hdb.hostTrees.find tree = some t) :
    hdb.ActiveHosts tree = .ok (t.hosts.filter activeTest) ∧
    ∀ e : HostDBEntry, e ∈ t.hosts.filter activeTest ↔
      (e ∈ t.hosts ∧ e.ScanHistory ≠ [] ∧
       (∃ s, e.ScanHistory.getLast? = some s ∧ s.Success = true) ∧
       e.AcceptingContracts = true) := by
  constructor
  · simp only [HostDB.ActiveHosts, HostTrees.All, h, HostTree.All]
    rfl
  · intro e
    cases hl : e.ScanHistory.getLast? with
    | none =>
        have he : e.ScanHistory = [] := List.getLast?_eq_none_iff.mp hl
        simp [List.mem_filter, activeTest, he]
    | some s =>
        have he : ¬ e.ScanHistory = [] := by
          intro hx
          rw [hx] at hl
          simp at hl
        simp [List.mem_filter, activeTest, he, hl, List.getLastD_eq_getLast?]

/-- Witness for C7: on a concrete database whose default tree holds one
active entry, `ActiveHosts` returns exactly that entry. -/
theorem C7_witness : hdbOn.ActiveHosts "default" = .ok [entryA] :=
  (C7_activeHosts_exact hdbOn "default" { hosts := [entryA] } (by decide)).1.trans
    (by decide)

/-- Trees reachable through the exported `HostTrees` interface whose key
sets differ: tree `"a"` is empty while tree `"b"` already holds `entryA`. -/
def treesC2 : HostTrees :=
  ((NewHostTrees.AddHostTree "a" { hosts := [] }).1.AddHostTree "b"
    (HostTree.Insert { hosts := [] } entryA).1).1

/-- C2 counterexample: inserting `entryA` into `treesC2` fails on tree
`"b"` (duplicate key), yet tree `"a"` — empty before the call — is left
holding `entryA`: the earlier insert is not rolled back. -/
theorem C2_counterexample :
    (treesC2.Insert entryA).2 = some .errHostExists ∧
    treesC2.find "a" = some { hosts := [] } ∧
    (treesC2.Insert entryA).1.find "a" = some { hosts := [entryA] } := by
  decide

lemma insertLoop_no_rollback (pre post : List (String × HostTree))
    (name : String) (t : HostTree) (e : HostDBEntry)
    (hpre : ∀ kv ∈ pre, kv.2.hosts.any (fun h => h.PublicKey = e.PublicKey) = false)
    (ht : t.hosts.any (fun h => h.PublicKey = e.PublicKey) = true) :
    HostTrees.insertLoop e (pre ++ (name, t) :: post) =
      (pre.map (fun kv => (kv.1, { hosts := kv.2.hosts ++ [e] })) ++ (name, t) :: post,
       some .errHostExists) := by
  induction pre with
  | nil => simp [HostTrees.insertLoop, HostTree.Insert, ht]
  | cons kv pres ih =>
      obtain ⟨n2, t2⟩ := kv
      have hkv : t2.hosts.any (fun h => h.PublicKey = e.PublicKey) = false :=
        hpre (n2, t2) (List.mem_cons_self _ _)
      have ih2 := ih (fun kv hm => hpre kv (List.mem_cons_of_mem _ hm))
      simp [HostTrees.insertLoop, HostTree.Insert, hkv, ih2]

/-- C2 amended: `HostTrees.Insert` walks the trees in iteration order and
returns the first duplicate error; the inserts already performed into the
trees before the failing one are kept, not rolled back. -/
theorem C2_amended_insert_no_rollback (pre post : List (String × HostTree))
    (name : String) (t : HostTree) (e : HostDBEntry)
    (hpre : ∀ kv ∈ pre, kv.2.hosts.any (fun h => h.PublicKey = e.PublicKey) = false)
    (ht : t.hosts.any (fun h => h.PublicKey = e.PublicKey) = true) :
    HostTrees.Insert { trees := pre ++ (name, t) :: post } e =
      ({ trees := pre.map (fun kv => (kv.1, { hosts := kv.2.hosts ++ [e] })) ++
          (name, t) :: post },
       some .errHostExists) := by
  unfold HostTrees.Insert
  rw [insertLoop_no_rollback pre post name t e hpre ht]

/-- Witness for C2: the amended no-rollback behaviour at the concrete
`treesC2` state. -/
theorem C2_witness :
    HostTrees.Insert { trees := [("a", { hosts := [] }),
        ("b", { hosts := [entryA] })] } entryA =
      ({ trees := [("a", { hosts := [entryA] }), ("b", { hosts := [entryA] })] },
       some .errHostExists) := by
  have h := C2_amended_insert_no_rollback [("a", { hosts := [] })] []
    "b" { hosts := [entryA] } entryA (by decide) (by decide)
  simpa using h

/-- The comparison `sort.Slice` is given: ascending `LastIPNetChange`. -/
def byAge (a b : HostDBEntry) : Prop :=
  a.LastIPNetChange ≤ b.LastIPNetChange

lemma perm_insertByAge (e : HostDBEntry) (l : List HostDBEntry) :
    (insertByAge e l).Perm (e :: l) := by
  induction l with
  | nil => simp [insertByAge]
  | cons x xs ih =>
      unfold insertByAge
      split_ifs with h
      · exact List.Perm.refl _
      · exact (List.Perm.cons x ih).trans (List.Perm.swap e x xs)

lemma sorted_insertByAge (e : HostDBEntry) (l : List HostDBEntry)
    (h : List.Sorted byAge l) : List.Sorted byAge (insertByAge e l) := by
  induction l with
  | nil => simp [insertByAge, List.Sorted]
  | cons x xs ih =>
      rw [List.sorted_cons] at h
      unfold insertByAge
      split_ifs with hlt
      · rw [List.sorted_cons]
        refine ⟨?_, ?_⟩
        · intro b hb
          rcases List.mem_cons.mp hb with hb | hb
          · subst hb
            exact Nat.le_of_lt hlt
          · exact Nat.le_trans (Nat.le_of_lt hlt) (h.1 b hb)
        · rw [List.sorted_cons]
          exact h
      · rw [List.sorted_cons]
        refine ⟨?_, ih h.2⟩
        intro b hb
        rcases List.mem_cons.mp ((perm_insertByAge e xs).mem_iff.mp hb) with hb | hb
        · subst hb
          exact Nat.le_of_not_lt hlt
        · exact h.1 b hb

lemma perm_sortByAge (l : List HostDBEntry) : (sortByAge l).Perm l := by
  induction l with
  | nil => simp [sortByAge]
  | cons x xs ih =>
      have : sortByAge (x :: xs) = insertByAge x (sortByAge xs) := rfl
      rw [this]
      exact (perm_insertByAge x (sortByAge xs)).trans (List.Perm.cons x ih)

lemma sorted_sortByAge (l : List HostDBEntry) : List.Sorted byAge (sortByAge l) := by
  induction l with
  | nil => simp [sortByAge, List.Sorted]
  | cons x xs ih => exact sorted_insertByAge x (sortByAge xs) ih

lemma lookupPhase_eq (t : HostTree) (ks : List String) :
    lookupPhase t ks =
      (ks.filterMap t.Select, ks.filter fun k => (t.Select k).isNone) := by
  induction ks with
  | nil => simp [lookupPhase]
  | cons k ks ih =>
      cases hk : t.Select k with
      | none => simp [lookupPhase, List.filterMap_cons, ih, hk]
      | some e => simp [lookupPhase, List.filterMap_cons, ih, hk]

/-- C4: `CheckForIPViolations` returns exactly the keys with no database
entry followed by the keys the fresh IP filter rejects when the found
entries are walked in ascending order of `LastIPNetChange` (the sorting
phase produces an ascending permutation of the found entries). -/
theorem C4_checkForIPViolations_exact (hdb : HostDB) (t : HostTree)
    (resolver : String → List String) (hosts : List String)
    (h : hdb.hostTrees.find "default" = some t) :
    hdb.CheckForIPViolations resolver hosts =
      .ok ((hosts.filter fun k => (t.Select k).isNone) ++
        filterPhase resolver NewFilter (sortByAge (hosts.filterMap t.Select))) ∧
    List.Sorted byAge (sortByAge (hosts.filterMap t.Select)) ∧
    (sortByAge (hosts.filterMap t.Select)).Perm (hosts.filterMap t.Select) := by
  refine ⟨?_, sorted_sortByAge _, perm_sortByAge _⟩
  unfold HostDB.CheckForIPViolations
  rw [h]
  simp only [lookupPhase_eq]

/-- Host that has occupied its subnet longest (earliest change stamp). -/
def entryOld : HostDBEntry :=
  { PublicKey := "pkOld", NetAddress := "old.example",
    AcceptingContracts := true, ScanHistory := [], FirstSeen := 1,
    LastIPNetChange := 0 }

/-- Host in the same subnet as `entryOld` but with the latest change stamp. -/
def entryYoung : HostDBEntry :=
  { PublicKey := "pkYoung", NetAddress := "young.example",
    AcceptingContracts := true, ScanHistory := [], FirstSeen := 1,
    LastIPNetChange := 5 }

/-- Host in an unrelated subnet. -/
def entryOther : HostDBEntry :=
  { PublicKey := "pkOther", NetAddress := "other.example",
    AcceptingContracts := true, ScanHistory := [], FirstSeen := 1,
    LastIPNetChange := 3 }

/-- Concrete resolver: `entryOld` and `entryYoung` share a /24, `entryOther`
lives elsewhere. -/
def resolverC4 (address : String) : List String :=
  if address = "old.example" then ["10.0.0.0/24"]
  else if address = "young.example" then ["10.0.0.0/24"]
  else if address = "other.example" then ["10.0.1.0/24"]
  else []

/-- Concrete HostDB for the IP-violation scenario. -/
def hdbC4 : HostDB :=
  { hostdbProfiles := NewHostDBProfiles,
    hostTrees := { trees :=
      [("default", { hosts := [entryOld, entryYoung, entryOther] })] },
    initialScanComplete := true, blockHeight := 10, lastChange := "cc0" }

/-- Witness for C4: of the two hosts sharing a subnet the one with the
later `LastIPNetChange` is the one reported as violating. -/
theorem C4_witness :
    hdbC4.CheckForIPViolations resolverC4 ["pkOld", "pkYoung", "pkOther"] =
      .ok ["pkYoung"] :=
  ((C4_checkForIPViolations_exact hdbC4
      { hosts := [entryOld, entryYoung, entryOther] } resolverC4
      ["pkOld", "pkYoung", "pkOther"] (by decide)).1).trans (by decide)

lemma buildTree_go (bh : Nat) (l : List HostDBEntry) (acc : HostTree)
    (hnd : (l.map HostDBEntry.PublicKey).Nodup)
    (hdisj : ∀ hx ∈ l, ∀ a ∈ acc.hosts, ¬ a.PublicKey = hx.PublicKey)
    (hfs : ∀ hx ∈ l, hx.FirstSeen ≤ bh) :
    l.foldl (fun t h => (t.Insert (clampFirstSeen bh h)).1) acc =
      { hosts := acc.hosts ++ l } := by
  induction l generalizing acc with
  | nil => simp
  | cons h hs ih =>
      have hfs1 : h.FirstSeen ≤ bh := hfs h (List.mem_cons_self _ _)
      have hclamp : clampFirstSeen bh h = h := by
        unfold clampFirstSeen
        exact if_neg (Nat.not_lt.mpr hfs1)
      have hany : (acc.hosts.any (fun x => x.PublicKey = h.PublicKey)) = false := by
        rw [List.any_eq_false]
        intro a ha
        simpa using hdisj h (List.mem_cons_self _ _) a ha
      have hins : (acc.Insert h).1 = { hosts := acc.hosts ++ [h] } := by
        simp [HostTree.Insert, hany]
      have hnd0 : (∀ x ∈ hs, ¬ x.PublicKey = h.PublicKey) ∧
          (hs.map HostDBEntry.PublicKey).Nodup := by simpa using hnd
      have hdisj2 : ∀ hx ∈ hs, ∀ a ∈ acc.hosts ++ [h], ¬ a.PublicKey = hx.PublicKey := by
        intro hx hhx a ha
        rcases List.mem_append.mp ha with ha | ha
        · exact hdisj hx (List.mem_cons_of_mem _ hhx) a ha
        · rcases List.mem_singleton.mp ha with rfl
          intro he
          exact hnd0.1 hx hhx he.symm
      rw [List.foldl_cons, hclamp, hins]
      rw [ih { hosts := acc.hosts ++ [h] } hnd0.2 hdisj2
        (fun hx hhx => hfs hx (List.mem_cons_of_mem _ hhx))]
      simp

lemma buildTree_eq (bh : Nat) (l : List HostDBEntry)
    (hnd : (l.map HostDBEntry.PublicKey).Nodup)
    (hfs : ∀ hx ∈ l, hx.FirstSeen ≤ bh) :
    buildTree bh l = { hosts := l } := by
  have h := buildTree_go bh l { hosts := [] } hnd
    (by intro hx _ a ha; simp at ha) hfs
  simpa [buildTree] using h

lemma assocFind_map_keys {β : Type} (l : List (String × β)) (k : String)
    (T : HostTree) (hk : k ∈ l.map Prod.fst) :
    assocFind (l.map (fun kv => (kv.1, T))) k = some T := by
  induction l with
  | nil => simp at hk
  | cons kv rest ih =>
      obtain ⟨a, b⟩ := kv
      by_cases hka : k = a
      · simp [assocFind, hka]
      · rcases List.mem_cons.mp hk with h1 | h1
        · exact absurd h1 hka
        · simpa [assocFind, hka] using ih h1

/-- The persistence record `persistData` produces for a database whose
default tree enumerates to `hosts`. -/
def persistRecordOf (hdb : HostDB) (hosts : List HostDBEntry) : HdbPersist :=
  { Profiles := some hdb.hostdbProfiles.profiles, AllHosts := hosts,
    BlockHeight := hdb.blockHeight, LastChange := hdb.lastChange }

/-- C5: saving and reloading restores the profiles, the host set of the
default tree, the block height and the last consensus-change id, and the
record written carries the metadata header "HostDB Persistence" with
version "0.5".  The hypotheses are the source invariants: the default tree
exists, its keys are unique (trees are built by `Insert`), and every
`FirstSeen` is at most the block height (spec §3), so the COMPAT clamp in
`loadHostTrees` is a no-op. -/
theorem C5_persistence_roundtrip (hdb hdb2 : HostDB) (t : HostTree)
    (hdef : hdb.hostTrees.find "default" = some t)
    (hnd : (t.hosts.map HostDBEntry.PublicKey).Nodup)
    (hfs : ∀ e ∈ t.hosts, e.FirstSeen ≤ hdb.blockHeight)
    (hmem : "default" ∈ hdb.hostdbProfiles.profiles.map Prod.fst) :
    hdb.saveSync = .ok { metadata := persistMetadata, data := persistRecordOf hdb t.hosts } ∧
    persistMetadata.Header = "HostDB Persistence" ∧
    persistMetadata.Version = "0.5" ∧
    ∀ st hosts,
      hdb2.load { metadata := persistMetadata, data := persistRecordOf hdb t.hosts } =
        .ok (st, hosts) →
      st.hostdbProfiles = hdb.hostdbProfiles ∧
      st.blockHeight = hdb.blockHeight ∧
      st.lastChange = hdb.lastChange ∧
      hosts = t.hosts ∧
      (st.loadHostTrees hosts).hostTrees.find "default" = some t := by
  refine ⟨?_, rfl, rfl, ?_⟩
  · simp only [HostDB.saveSync, HostDB.persistData, HostTrees.All, hdef]
    rfl
  · intro st hosts heq
    unfold HostDB.load at heq
    rw [if_neg (by simp)] at heq
    injection heq with h1
    injection h1 with hst hhosts
    subst hst
    subst hhosts
    refine ⟨rfl, rfl, rfl, rfl, ?_⟩
    simp only [HostDB.loadHostTrees, HostTrees.find, persistRecordOf]
    rw [assocFind_map_keys _ _ _ hmem]
    rw [buildTree_eq _ _ hnd hfs]

/-- A just-constructed HostDB about to load the saved file. -/
def hdbFresh : HostDB :=
  { hostdbProfiles := NewHostDBProfiles, hostTrees := NewHostTrees,
    initialScanComplete := false, blockHeight := 0, lastChange := "" }

/-- The state `hdbFresh` reaches after loading the file saved by `hdbOn`. -/
def stC5 : HostDB :=
  { hostdbProfiles := NewHostDBProfiles, hostTrees := NewHostTrees,
    initialScanComplete := false, blockHeight := 10, lastChange := "cc0" }

/-- Witness for C5: the round trip at the concrete database `hdbOn`. -/
theorem C5_witness :
    hdbOn.saveSync = .ok { metadata := persistMetadata, data := persistRecordOf hdbOn [entryA] } ∧
    (stC5.loadHostTrees [entryA]).hostTrees.find "default" =
      some { hosts := [entryA] } := by
  have h := C5_persistence_roundtrip hdbOn hdbFresh { hosts := [entryA] }
    (by decide) (by decide) (by decide) (by decide)
  exact ⟨h.1, (h.2.2.2 stC5 [entryA] (by rfl)).2.2.2.2⟩
